import Mathlib

/-!
Verification of `find_chunk_boundaries` from
`cs336_basics/pretokenization_example.py`.

The Python function splits a binary file into chunks whose interior
boundaries are adjusted forward from evenly spaced guesses until they land
on an occurrence of a separator byte sequence (or on end of file), then
deduplicates and sorts the boundary offsets.

Shallow embedding: the file contents are a `List Nat` of byte values; the
separator is a `List Nat`.  `file.seek(p)` followed by `file.read(n)` is
modelled as `(data.drop p).take n`.  Python's `bytes.find` is modelled by
`bytesFind` (returning `Option Nat` instead of `-1` on failure).  The
`while True` scan of the source terminates because the read position grows
by 4096 each iteration; it is embedded with a fuel argument of
`data.length + 1`, which is strictly more iterations than the scan can
ever take (each non-final iteration needs the position to still be inside
the file and advances it by 4096 ≥ 1).
-/

/-- Model of Python `hay.find(needle)` restricted to start index `k`:
the least index `j ≥ k` at which `needle` occurs fully inside `hay`,
or `none` (Python's `-1`).  For an empty needle this is `some k`,
matching Python's `b"x".find(b"") == 0`. -/
def bytesFindFrom (needle : List Nat) : List Nat → Nat → Option Nat
  | hay, k =>
    if hay.take needle.length = needle then some k
    else
      match hay with
      | [] => none
      | _ :: t => bytesFindFrom needle t (k + 1)

/-- Model of Python `hay.find(needle)` (line 81 of the source):
`some j` for the lowest `j` with `hay[j : j + len(needle)] == needle`,
`none` when the source returns `-1`. -/
def bytesFind (hay needle : List Nat) : Option Nat :=
  bytesFindFrom needle hay 0

/-- `mini_chunk_size = 4096` from the source. -/
def mini_chunk_size : Nat := 4096

/-- The `while True` loop (lines 63-87 of the source), searching forward
from `pos` in non-overlapping 4096-byte windows: an empty read (EOF)
yields `data.length`; a found separator at relative offset `k` yields
`pos + k`; otherwise the window start advances by 4096.  `fuel` bounds the
number of iterations; `adjustBoundary` supplies enough fuel that the bound
is never hit. -/
def adjustBoundaryFuel (data sep : List Nat) : Nat → Nat → Nat
  | 0, _ => data.length
  | fuel + 1, pos =>
    let mini_chunk := (data.drop pos).take mini_chunk_size
    if mini_chunk = [] then data.length
    else
      match bytesFind mini_chunk sep with
      | some found_at => pos + found_at
      | none => adjustBoundaryFuel data sep fuel (pos + mini_chunk_size)

/-- One interior-boundary adjustment: the scan of lines 61-87 starting at
the initial guess `pos`. -/
def adjustBoundary (data sep : List Nat) (pos : Nat) : Nat :=
  adjustBoundaryFuel data sep (data.length + 1) pos

/-- `chunk_boundaries` after lines 42-49 of the source:
`[i * chunk_size for i in range(desired_num_chunks + 1)]` with the last
entry overwritten by `file_size`. -/
def initialBoundaries (file_size desired_num_chunks : Nat) : List Nat :=
  (((List.range (desired_num_chunks + 1)).map
      (fun i => i * (file_size / desired_num_chunks))).dropLast) ++ [file_size]

/-- The `for bi in range(1, len(chunk_boundaries) - 1)` loop (line 61):
entries at positional index `i` with `1 ≤ i` and `i + 1 < len` are
replaced by the scan's result; the two endpoints are kept.  Each loop
iteration reads and writes only index `bi`, so the loop is a map over
indexed entries. -/
def adjustAllFrom (data sep : List Nat) (len : Nat) : Nat → List Nat → List Nat
  | _, [] => []
  | i, b :: bs =>
    (if 1 ≤ i ∧ i + 1 < len then adjustBoundary data sep b else b) ::
      adjustAllFrom data sep len (i + 1) bs

/-- The whole adjustment loop applied to a boundary list. -/
def adjustAll (data sep bs : List Nat) : List Nat :=
  adjustAllFrom data sep bs.length 0 bs

/-- Python `sorted(set(xs))` (line 100): the distinct elements in
ascending order. -/
def sortedSet (xs : List Nat) : List Nat :=
  List.insertionSort (· ≤ ·) xs.dedup

/-- The embedded `find_chunk_boundaries(file, desired_num_chunks,
split_special_token)`: `data` is the file's byte content (so
`file_size = data.length`), and the result is
`sorted(set(adjusted boundaries))`.  Python requires
`desired_num_chunks ≥ 1` (division by zero otherwise); the claims only
concern that range. -/
def find_chunk_boundaries (data : List Nat) (desired_num_chunks : Nat)
    (split_special_token : List Nat) : List Nat :=
  sortedSet (adjustAll data split_special_token
    (initialBoundaries data.length desired_num_chunks))

/-- A Python value passed as the separator argument: either a `bytes`
object or a `str`.  Used to model the dynamic type check of lines 20-22. -/
inductive PyVal where
  | bytes (b : List Nat) : PyVal
  | str (s : String) : PyVal

/-- `find_chunk_boundaries` together with its `assert
isinstance(split_special_token, bytes)` (lines 20-22): a non-bytes
separator raises an `AssertionError` with the source's message; any
`bytes` value — including the empty one — passes the check and the
computation proceeds. -/
def find_chunk_boundariesChecked (data : List Nat) (desired_num_chunks : Nat)
    (tok : PyVal) : Except String (List Nat) :=
  match tok with
  | PyVal.bytes sep =>
      Except.ok (find_chunk_boundaries data desired_num_chunks sep)
  | PyVal.str _ =>
      Except.error "Must represent special token as a bytestring"

/-- The separator occurs in the file starting at byte offset `i`
(fully contained, byte-exact). -/
def occursAt (data sep : List Nat) (i : Nat) : Prop :=
  (data.drop i).take sep.length = sep

instance (data sep : List Nat) (i : Nat) : Decidable (occursAt data sep i) := by
  unfold occursAt
  exact inferInstance

/-- Concrete 100-byte file for the spec's worked scenario: byte `88`
("X") exactly at offsets 24 and 51, byte `65` everywhere else. -/
def dataC3 : List Nat :=
  (List.range 100).map (fun i => if i = 24 ∨ i = 51 then 88 else 65)

/-- Concrete 8194-byte file whose unique occurrence of the two-byte
separator `[88, 88]` starts at offset 8192, straddling the boundary
between the scan windows `[4097, 8193)` and `[8193, ...)` of the interior
guess 4097. -/
def dataC5 : List Nat :=
  List.replicate 8192 65 ++ [88, 88]

/-! ### Lemmas about `bytesFind` -/

lemma bytesFindFrom_some (needle : List Nat) :
    ∀ (hay : List Nat) (k j : Nat), bytesFindFrom needle hay k = some j →
      ∃ m, j = k + m ∧ m ≤ hay.length ∧ (hay.drop m).take needle.length = needle := by
  intro hay
  induction hay with
  | nil =>
    intro k j h
    rw [bytesFindFrom] at h
    by_cases hc : List.take needle.length ([] : List Nat) = needle
    · rw [if_pos hc] at h
      injection h with h1
      subst h1
      exact ⟨0, by omega, by simp, by simpa using hc⟩
    · rw [if_neg hc] at h
      exact absurd h (by simp)
  | cons x t ih =>
    intro k j h
    rw [bytesFindFrom] at h
    by_cases hc : List.take needle.length (x :: t) = needle
    · rw [if_pos hc] at h
      injection h with h1
      subst h1
      exact ⟨0, by omega, by simp, by simpa using hc⟩
    · rw [if_neg hc] at h
      obtain ⟨m, hm, hle, ht⟩ := ih (k + 1) j h
      exact ⟨m + 1, by omega, by simp ; omega, by simpa using ht⟩

lemma bytesFindFrom_eq_none (needle : List Nat) :
    ∀ (hay : List Nat) (k : Nat),
      (∀ m, (hay.drop m).take needle.length ≠ needle) →
      bytesFindFrom needle hay k = none := by
  intro hay
  induction hay with
  | nil =>
    intro k h
    rw [bytesFindFrom, if_neg (by simpa using h 0)]
  | cons x t ih =>
    intro k h
    rw [bytesFindFrom, if_neg (by simpa using h 0)]
    exact ih (k + 1) (fun m => by simpa using h (m + 1))

lemma bytesFindFrom_self (needle hay : List Nat) (k : Nat)
    (h : hay.take needle.length = needle) : bytesFindFrom needle hay k = some k := by
  cases hay with
  | nil => rw [bytesFindFrom, if_pos h]
  | cons x t => rw [bytesFindFrom, if_pos h]

lemma bytesFind_some (hay needle : List Nat) (j : Nat)
    (h : bytesFind hay needle = some j) :
    j ≤ hay.length ∧ (hay.drop j).take needle.length = needle := by
  obtain ⟨m, hm, hle, ht⟩ := bytesFindFrom_some needle hay 0 j h
  have : m = j := by omega
  subst this
  exact ⟨hle, ht⟩

/-! ### Lemmas about the forward window scan -/

/-- A separator found inside the window read at `pos` is an occurrence in
the whole file at the corresponding absolute offset. -/
lemma take_of_window (data sep : List Nat) (pos k : Nat)
    (h : (((data.drop pos).take mini_chunk_size).drop k).take sep.length = sep) :
    (data.drop (pos + k)).take sep.length = sep := by
  have hlen := congrArg List.length h
  rw [List.length_take, List.length_drop, List.length_take] at hlen
  have hmin1 : min sep.length (min mini_chunk_size (data.drop pos).length - k) ≤
      min mini_chunk_size (data.drop pos).length - k := Nat.min_le_right _ _
  have hmin2 : min mini_chunk_size (data.drop pos).length ≤ mini_chunk_size :=
    Nat.min_le_left _ _
  have hfit : sep.length ≤ mini_chunk_size - k := by omega
  rw [List.drop_take, List.drop_drop, List.take_take, Nat.min_eq_left hfit] at h
  exact h

lemma adjustBoundaryFuel_le (data sep : List Nat) :
    ∀ (fuel pos : Nat), adjustBoundaryFuel data sep fuel pos ≤ data.length := by
  intro fuel
  induction fuel with
  | zero => intro pos ; rw [adjustBoundaryFuel]
  | succ f ih =>
    intro pos
    rw [adjustBoundaryFuel]
    by_cases hm : (data.drop pos).take mini_chunk_size = []
    · simp [hm]
    · simp only [if_neg hm]
      cases hfind : bytesFind ((data.drop pos).take mini_chunk_size) sep with
      | none => exact ih (pos + mini_chunk_size)
      | some k =>
        show pos + k ≤ data.length
        obtain ⟨hk, -⟩ := bytesFind_some _ _ _ hfind
        have h1 : ((data.drop pos).take mini_chunk_size).length =
            min mini_chunk_size (data.drop pos).length := List.length_take _ _
        have h2 : 0 < ((data.drop pos).take mini_chunk_size).length :=
          List.length_pos.mpr hm
        have h3 : min mini_chunk_size (data.drop pos).length ≤ (data.drop pos).length :=
          Nat.min_le_right _ _
        have h4 : (data.drop pos).length = data.length - pos := List.length_drop _ _
        omega

lemma adjustBoundaryFuel_spec (data sep : List Nat) :
    ∀ (fuel pos : Nat), adjustBoundaryFuel data sep fuel pos = data.length ∨
      occursAt data sep (adjustBoundaryFuel data sep fuel pos) := by
  intro fuel
  induction fuel with
  | zero => intro pos ; left ; rw [adjustBoundaryFuel]
  | succ f ih =>
    intro pos
    rw [adjustBoundaryFuel]
    by_cases hm : (data.drop pos).take mini_chunk_size = []
    · left ; simp [hm]
    · simp only [if_neg hm]
      cases hfind : bytesFind ((data.drop pos).take mini_chunk_size) sep with
      | none => exact ih (pos + mini_chunk_size)
      | some k =>
        right
        show occursAt data sep (pos + k)
        obtain ⟨-, ht⟩ := bytesFind_some _ _ _ hfind
        exact take_of_window data sep pos k ht

lemma adjustBoundary_le (data sep : List Nat) (pos : Nat) :
    adjustBoundary data sep pos ≤ data.length :=
  adjustBoundaryFuel_le data sep _ pos

lemma adjustBoundary_spec (data sep : List Nat) (pos : Nat) :
    adjustBoundary data sep pos = data.length ∨
      occursAt data sep (adjustBoundary data sep pos) :=
  adjustBoundaryFuel_spec data sep _ pos

/-- Core of the `found_at == 0` policy: a separator that fits in a window
and occurs exactly at the scan's start position is accepted there, so the
scan returns the start position itself. -/
lemma adjustBoundary_of_occursAt (data sep : List Nat) (pos : Nat)
    (hne : sep ≠ []) (hfit : sep.length ≤ mini_chunk_size)
    (h : occursAt data sep pos) :
    adjustBoundary data sep pos = pos := by
  unfold occursAt at h
  have hmini : ((data.drop pos).take mini_chunk_size).take sep.length = sep := by
    rw [List.take_take, Nat.min_eq_left hfit]
    exact h
  have hmn : (data.drop pos).take mini_chunk_size ≠ [] := by
    intro h0
    rw [h0] at hmini
    simp at hmini
    exact hne hmini
  rw [adjustBoundary, adjustBoundaryFuel]
  rw [if_neg hmn]
  rw [show bytesFind ((data.drop pos).take mini_chunk_size) sep = some 0 from
    bytesFindFrom_self _ _ _ hmini]
  rfl

/-! ### Lemmas about `initialBoundaries` -/

lemma initialBoundaries_eq (fs d : Nat) :
    initialBoundaries fs d = (List.range d).map (fun i => i * (fs / d)) ++ [fs] := by
  rw [initialBoundaries, List.range_succ]
  simp

lemma initialBoundaries_length (fs d : Nat) :
    (initialBoundaries fs d).length = d + 1 := by
  rw [initialBoundaries_eq]
  simp

lemma initialBoundaries_mem_le (fs d : Nat) (b : Nat)
    (hb : b ∈ initialBoundaries fs d) : b ≤ fs := by
  rw [initialBoundaries_eq] at hb
  rcases List.mem_append.mp hb with h | h
  · obtain ⟨i, hi, rfl⟩ := List.mem_map.mp h
    have hid : i ≤ d := Nat.le_of_lt (List.mem_range.mp hi)
    calc i * (fs / d) ≤ d * (fs / d) := Nat.mul_le_mul_right _ hid
      _ = fs / d * d := Nat.mul_comm _ _
      _ ≤ fs := Nat.div_mul_le_self fs d
  · simp at h
    omega

lemma initialBoundaries_head (fs d : Nat) (hd : 1 ≤ d) :
    ∃ t, initialBoundaries fs d = 0 :: t := by
  obtain ⟨d', rfl⟩ : ∃ d', d = d' + 1 := ⟨d - 1, by omega⟩
  rw [initialBoundaries_eq, List.range_succ_eq_map, List.map_cons, List.cons_append,
    Nat.zero_mul]
  exact ⟨_, rfl⟩

lemma initialBoundaries_get_zero (fs d : Nat) (hd : 1 ≤ d) :
    (initialBoundaries fs d).get? 0 = some 0 := by
  obtain ⟨t, ht⟩ := initialBoundaries_head fs d hd
  rw [ht]
  rfl

lemma initialBoundaries_get_last (fs d : Nat) :
    (initialBoundaries fs d).get? d = some fs := by
  have h := List.get?_concat_length ((List.range d).map (fun i => i * (fs / d))) fs
  rw [initialBoundaries_eq]
  simpa using h

lemma initialBoundaries_getLast (fs d : Nat) :
    (initialBoundaries fs d).getLast? = some fs := by
  rw [initialBoundaries_eq]
  exact List.getLast?_concat _

/-! ### Lemmas about the adjustment loop -/

lemma adjustAllFrom_length (data sep : List Nat) (len : Nat) :
    ∀ (bs : List Nat) (i : Nat), (adjustAllFrom data sep len i bs).length = bs.length := by
  intro bs
  induction bs with
  | nil => intro i ; rw [adjustAllFrom]
  | cons b t ih =>
    intro i
    rw [adjustAllFrom]
    simp [ih]

lemma adjustAllFrom_getLast (data sep : List Nat) (len : Nat) :
    ∀ (bs : List Nat) (i : Nat), bs ≠ [] → i + bs.length = len →
      (adjustAllFrom data sep len i bs).getLast? = bs.getLast? := by
  intro bs
  induction bs with
  | nil => intro i h ; exact absurd rfl h
  | cons b t ih =>
    intro i hne hlen
    cases t with
    | nil =>
      rw [adjustAllFrom, adjustAllFrom]
      have hcond : ¬(1 ≤ i ∧ i + 1 < len) := by
        simp at hlen
        omega
      rw [if_neg hcond]
    | cons b' t' =>
      rw [adjustAllFrom]
      have htail := ih (i + 1) (by simp) (by simp at hlen ⊢ ; omega)
      rw [adjustAllFrom] at htail ⊢
      rw [List.getLast?_cons_cons, htail, List.getLast?_cons_cons]

lemma adjustAllFrom_mem (data sep : List Nat) (len : Nat) :
    ∀ (bs : List Nat) (i : Nat) (x : Nat), x ∈ adjustAllFrom data sep len i bs →
      (∃ j, bs.get? j = some x ∧ ¬(1 ≤ i + j ∧ i + j + 1 < len)) ∨
        ∃ b ∈ bs, x = adjustBoundary data sep b := by
  intro bs
  induction bs with
  | nil => intro i x h ; rw [adjustAllFrom] at h ; simp at h
  | cons b t ih =>
    intro i x h
    rw [adjustAllFrom] at h
    rcases List.mem_cons.mp h with h1 | h1
    · by_cases hc : 1 ≤ i ∧ i + 1 < len
      · rw [if_pos hc] at h1
        exact Or.inr ⟨b, List.mem_cons_self _ _, h1⟩
      · rw [if_neg hc] at h1
        exact Or.inl ⟨0, by simpa using h1.symm, by simpa using hc⟩
    · rcases ih (i + 1) x h1 with ⟨j, hj, hcond⟩ | ⟨b', hb', hx⟩
      · refine Or.inl ⟨j + 1, by simpa using hj, ?_⟩
        intro hcontra
        exact hcond ⟨by omega, by omega⟩
      · exact Or.inr ⟨b', List.mem_cons_of_mem _ hb', hx⟩

lemma adjustAllFrom_cons_head (data sep : List Nat) (len : Nat) (b : Nat)
    (t : List Nat) :
    adjustAllFrom data sep len 0 (b :: t) = b :: adjustAllFrom data sep len 1 t := by
  rw [adjustAllFrom]
  simp

/-! ### Lemmas about `sortedSet` -/

lemma mem_sortedSet (x : Nat) (l : List Nat) : x ∈ sortedSet l ↔ x ∈ l := by
  rw [sortedSet]
  rw [(List.perm_insertionSort _ l.dedup).mem_iff]
  exact List.mem_dedup

lemma nodup_sortedSet (l : List Nat) : (sortedSet l).Nodup :=
  (List.perm_insertionSort _ l.dedup).nodup_iff.mpr (List.nodup_dedup l)

lemma sorted_le_sortedSet (l : List Nat) : List.Sorted (· ≤ ·) (sortedSet l) :=
  List.sorted_insertionSort _ _

lemma sorted_lt_sortedSet (l : List Nat) : List.Sorted (· < ·) (sortedSet l) :=
  (sorted_le_sortedSet l).lt_of_le (nodup_sortedSet l)

lemma length_sortedSet_le (l : List Nat) : (sortedSet l).length ≤ l.length := by
  rw [sortedSet, (List.perm_insertionSort _ l.dedup).length_eq]
  exact (List.dedup_sublist l).length_le

lemma sorted_head_eq (l : List Nat) (a : Nat) (hs : List.Sorted (· ≤ ·) l)
    (ha : a ∈ l) (hmin : ∀ b ∈ l, a ≤ b) : l.head? = some a := by
  cases l with
  | nil => exact absurd ha (List.not_mem_nil a)
  | cons x t =>
    have hxa : a ≤ x := hmin x (List.mem_cons_self x t)
    rcases List.mem_cons.mp ha with h | h
    · rw [h]
      rfl
    · have hax : x ≤ a := List.rel_of_sorted_cons hs a h
      have : x = a := Nat.le_antisymm hax hxa
      rw [this]
      rfl

lemma sorted_getLast_eq (a : Nat) :
    ∀ (l : List Nat), List.Sorted (· ≤ ·) l → a ∈ l → (∀ b ∈ l, b ≤ a) →
      l.getLast? = some a := by
  intro l
  induction l with
  | nil => intro _ ha _ ; exact absurd ha (List.not_mem_nil a)
  | cons x t ih =>
    intro hs ha hmax
    cases t with
    | nil =>
      simp at ha
      rw [ha]
      rfl
    | cons y t' =>
      rw [List.getLast?_cons_cons]
      refine ih hs.of_cons ?_ (fun b hb => hmax b (List.mem_cons_of_mem _ hb))
      rcases List.mem_cons.mp ha with h | h
      · have hxy : x ≤ y := List.rel_of_sorted_cons hs y (List.mem_cons_self y t')
        have hyx : y ≤ a := hmax y (List.mem_cons_of_mem _ (List.mem_cons_self y t'))
        have : y = a := by omega
        rw [← this]
        exact List.mem_cons_self y t'
      · exact h

lemma two_le_length_of_mem (l : List Nat) (a b : Nat) (ha : a ∈ l) (hb : b ∈ l)
    (hab : a ≠ b) : 2 ≤ l.length := by
  cases l with
  | nil => exact absurd ha (List.not_mem_nil a)
  | cons x t =>
    cases t with
    | nil =>
      simp at ha hb
      omega
    | cons y t' => simp

lemma mem_of_getLast?_sorted (l : List Nat) (a : Nat) (h : l.getLast? = some a) :
    a ∈ l :=
  List.mem_of_getLast?_eq_some h

/-! ### The adjusted boundary list before dedup and sort -/

lemma adjusted_mem_le (data sep : List Nat) (d : Nat) (x : Nat)
    (hx : x ∈ adjustAll data sep (initialBoundaries data.length d)) :
    x ≤ data.length := by
  rw [adjustAll] at hx
  rcases adjustAllFrom_mem data sep _ _ _ _ hx with ⟨j, hj, -⟩ | ⟨b, -, rfl⟩
  · exact initialBoundaries_mem_le _ _ _ (List.get?_mem hj)
  · exact adjustBoundary_le data sep b

lemma adjusted_mem_cases (data sep : List Nat) (d : Nat) (hd : 1 ≤ d) (x : Nat)
    (hx : x ∈ adjustAll data sep (initialBoundaries data.length d)) :
    x = 0 ∨ x = data.length ∨ occursAt data sep x := by
  rw [adjustAll] at hx
  rcases adjustAllFrom_mem data sep _ _ _ _ hx with ⟨j, hj, hcond⟩ | ⟨b, -, rfl⟩
  · have hjlt : j < (initialBoundaries data.length d).length := by
      by_contra hlt
      rw [List.get?_eq_none.mpr (by omega)] at hj
      exact Option.some_ne_none x hj.symm
    rw [initialBoundaries_length] at hjlt
    rw [initialBoundaries_length] at hcond
    have hj0 : j = 0 ∨ j = d := by omega
    rcases hj0 with rfl | h0
    · rw [initialBoundaries_get_zero data.length d hd] at hj
      left
      exact (Option.some.injEq _ _ ▸ hj).symm
    · rw [h0, initialBoundaries_get_last data.length d] at hj
      right ; left
      exact (Option.some.injEq _ _ ▸ hj).symm
  · rcases adjustBoundary_spec data sep b with h | h
    · exact Or.inr (Or.inl h)
    · exact Or.inr (Or.inr h)

lemma adjusted_mem_zero (data sep : List Nat) (d : Nat) (hd : 1 ≤ d) :
    0 ∈ adjustAll data sep (initialBoundaries data.length d) := by
  obtain ⟨t, ht⟩ := initialBoundaries_head data.length d hd
  rw [adjustAll, ht, adjustAllFrom_cons_head]
  exact List.mem_cons_self _ _

lemma adjusted_mem_len (data sep : List Nat) (d : Nat) :
    data.length ∈ adjustAll data sep (initialBoundaries data.length d) := by
  have hne : initialBoundaries data.length d ≠ [] := by
    rw [initialBoundaries_eq]
    simp
  have hl := adjustAllFrom_getLast data sep (initialBoundaries data.length d).length
    (initialBoundaries data.length d) 0 hne (by omega)
  rw [adjustAll]
  apply List.mem_of_getLast?_eq_some
  rw [hl, initialBoundaries_getLast]

/-! ### Claim theorems -/

/-- C1: for a readable byte source with `file_size > 0`, any
`desired_num_chunks ≥ 1` and any non-empty separator, the result of
`find_chunk_boundaries` is strictly sorted ascending (hence has no
duplicate offsets), its first element is `0`, and its last element is
`file_size`. -/
theorem C1_sorted_first_last (data : List Nat) (d : Nat) (sep : List Nat)
    (hfs : 0 < data.length) (hd : 1 ≤ d) (hsep : sep ≠ []) :
    List.Sorted (· < ·) (find_chunk_boundaries data d sep) ∧
      (find_chunk_boundaries data d sep).Nodup ∧
      (find_chunk_boundaries data d sep).head? = some 0 ∧
      (find_chunk_boundaries data d sep).getLast? = some data.length := by
  refine ⟨sorted_lt_sortedSet _, nodup_sortedSet _, ?_, ?_⟩
  · apply sorted_head_eq _ _ (sorted_le_sortedSet _)
    · exact (mem_sortedSet _ _).mpr (adjusted_mem_zero data sep d hd)
    · intro b _
      exact Nat.zero_le b
  · apply sorted_getLast_eq _ _ (sorted_le_sortedSet _)
    · exact (mem_sortedSet _ _).mpr (adjusted_mem_len data sep d)
    · intro b hb
      exact adjusted_mem_le data sep d b ((mem_sortedSet _ _).mp hb)

/-- Witness for C1 at the concrete 100-byte scenario file. -/
theorem C1_sorted_first_last_witness :
    List.Sorted (· < ·) (find_chunk_boundaries dataC3 4 [88]) ∧
      (find_chunk_boundaries dataC3 4 [88]).Nodup ∧
      (find_chunk_boundaries dataC3 4 [88]).head? = some 0 ∧
      (find_chunk_boundaries dataC3 4 [88]).getLast? = some dataC3.length :=
  C1_sorted_first_last dataC3 4 [88] (by decide) (by decide) (by decide)

/-- C2 counterexample: the source's only check is
`isinstance(split_special_token, bytes)`, so the empty byte sequence
passes it; `find_chunk_boundaries` then runs to completion and returns a
boundary list instead of raising. This refutes the claim that an empty
separator raises `InvalidArgument` with no I/O performed. -/
theorem C2_counterexample :
    find_chunk_boundariesChecked [65, 66, 67] 2 (PyVal.bytes []) =
        Except.ok [0, 1, 3] ∧
      ¬ ∃ e, find_chunk_boundariesChecked [65, 66, 67] 2 (PyVal.bytes []) =
        Except.error e := by
  refine ⟨rfl, ?_⟩
  rintro ⟨e, he⟩
  rw [(rfl : find_chunk_boundariesChecked [65, 66, 67] 2 (PyVal.bytes []) =
    Except.ok [0, 1, 3])] at he
  exact Except.noConfusion he

/-- C2 (amended): the assert raises exactly when the separator is not a
`bytes` value; every `bytes` separator — the empty one included — passes
the check and the computation proceeds normally and returns boundaries. -/
theorem C2_amended_type_check_only (data : List Nat) (d : Nat) (sep : List Nat)
    (s : String) :
    find_chunk_boundariesChecked data d (PyVal.bytes sep) =
        Except.ok (find_chunk_boundaries data d sep) ∧
      find_chunk_boundariesChecked data d (PyVal.str s) =
        Except.error "Must represent special token as a bytestring" :=
  ⟨rfl, rfl⟩

/-- Witness for the amended C2: empty bytes separator accepted, string
separator rejected. -/
theorem C2_amended_type_check_only_witness :
    find_chunk_boundariesChecked [65] 1 (PyVal.bytes []) =
        Except.ok (find_chunk_boundaries [65] 1 []) ∧
      find_chunk_boundariesChecked [65] 1 (PyVal.str "x") =
        Except.error "Must represent special token as a bytestring" :=
  C2_amended_type_check_only [65] 1 [] "x"

/-- C4: for a valid input, every returned offset is at most `file_size`,
and every returned offset is `0`, `file_size`, or the start offset of an
occurrence of the separator in the file. -/
theorem C4_boundary_invariants (data : List Nat) (d : Nat) (sep : List Nat)
    (hd : 1 ≤ d) (hsep : sep ≠ []) :
    ∀ x ∈ find_chunk_boundaries data d sep,
      x ≤ data.length ∧ (x = 0 ∨ x = data.length ∨ occursAt data sep x) := by
  intro x hx
  have hx' := (mem_sortedSet _ _).mp hx
  exact ⟨adjusted_mem_le data sep d x hx', adjusted_mem_cases data sep d hd x hx'⟩

/-- Witness for C4 at the interior boundary 51 of the concrete scenario. -/
theorem C4_boundary_invariants_witness :
    51 ≤ dataC3.length ∧ (51 = 0 ∨ 51 = dataC3.length ∨ occursAt dataC3 [88] 51) :=
  C4_boundary_invariants dataC3 4 [88] (by decide) (by decide) 51 (by decide)

/-- C6 counterexample: on the empty file with `desired_num_chunks = 1`
the result is `[0]`, not the two-element `[0, file_size] = [0, 0]`
(deduplication collapses the two equal endpoints), refuting the claim for
"every file". -/
theorem C6_counterexample :
    find_chunk_boundaries [] 1 [88] = [0] ∧
      find_chunk_boundaries [] 1 [88] ≠ [0, ([] : List Nat).length] := by
  constructor
  · decide
  · decide

/-- C6 (amended): for every file with `file_size > 0` and every non-empty
separator, `desired_num_chunks = 1` yields exactly `[0, file_size]` (no
interior boundaries exist, so nothing is adjusted). -/
theorem C6_amended_desired_one (data : List Nat) (sep : List Nat)
    (hfs : 0 < data.length) (hsep : sep ≠ []) :
    find_chunk_boundaries data 1 sep = [0, data.length] := by
  rw [find_chunk_boundaries]
  have h1 : initialBoundaries data.length 1 = [0, data.length] := by
    rw [initialBoundaries_eq, (by decide : List.range 1 = [0])]
    simp
  rw [h1]
  have h2 : adjustAll data sep [0, data.length] = [0, data.length] := by
    rw [adjustAll]
    rw [show ([0, data.length] : List Nat).length = 2 from rfl]
    rw [adjustAllFrom, adjustAllFrom, adjustAllFrom]
    rw [if_neg (by omega : ¬(1 ≤ 0 ∧ 0 + 1 < 2)), if_neg (by omega : ¬(1 ≤ 1 ∧ 1 + 1 < 2))]
  rw [h2]
  rw [sortedSet]
  rw [List.Nodup.dedup (by simp ; omega)]
  exact List.Sorted.insertionSort_eq (by simp [List.sorted_cons])

/-- Witness for the amended C6 on a two-byte file. -/
theorem C6_amended_desired_one_witness :
    find_chunk_boundaries [65, 66] 1 [88] = [0, ([65, 66] : List Nat).length] :=
  C6_amended_desired_one [65, 66] [88] (by decide) (by decide)

/-- C7: for `file_size > 0` and `desired_num_chunks ≥ 1`, the result's
length is at least 2 and at most `desired_num_chunks + 1`. -/
theorem C7_length_bounds (data : List Nat) (d : Nat) (sep : List Nat)
    (hfs : 0 < data.length) (hd : 1 ≤ d) :
    2 ≤ (find_chunk_boundaries data d sep).length ∧
      (find_chunk_boundaries data d sep).length ≤ d + 1 := by
  constructor
  · apply two_le_length_of_mem _ 0 data.length
    · exact (mem_sortedSet _ _).mpr (adjusted_mem_zero data sep d hd)
    · exact (mem_sortedSet _ _).mpr (adjusted_mem_len data sep d)
    · omega
  · calc (find_chunk_boundaries data d sep).length
        ≤ (adjustAll data sep (initialBoundaries data.length d)).length :=
          length_sortedSet_le _
      _ = (initialBoundaries data.length d).length := by
          rw [adjustAll]
          exact adjustAllFrom_length data sep _ _ 0
      _ = d + 1 := initialBoundaries_length _ _

/-- Witness for C7 at the concrete scenario. -/
theorem C7_length_bounds_witness :
    2 ≤ (find_chunk_boundaries dataC3 4 [88]).length ∧
      (find_chunk_boundaries dataC3 4 [88]).length ≤ 4 + 1 :=
  C7_length_bounds dataC3 4 [88] (by decide) (by decide)

/-- C8: if the separator (which fits inside one 4096-byte window) occurs
exactly at the scan's start offset, the window search finds it at relative
offset 0, `found_at == 0` is treated as a legitimate match, and the scan
returns the start offset itself without advancing. -/
theorem C8_found_at_zero_is_match (data sep : List Nat) (pos : Nat)
    (hne : sep ≠ []) (hfit : sep.length ≤ mini_chunk_size)
    (hocc : occursAt data sep pos) :
    adjustBoundary data sep pos = pos :=
  adjustBoundary_of_occursAt data sep pos hne hfit hocc

/-- Witness for C8: separator `[88]` occurring exactly at offset 1. -/
theorem C8_found_at_zero_is_match_witness :
    adjustBoundary [65, 88, 66] [88] 1 = 1 :=
  C8_found_at_zero_is_match [65, 88, 66] [88] 1 (by decide) (by decide) (by decide)

/-- C9: on the empty file every guess is 0 and every interior adjustment
hits end-of-file immediately (returning `file_size = 0`), so the result
is the single-element list `[0]` for every `desired_num_chunks ≥ 1` and
every separator. -/
theorem C9_empty_file_singleton (d : Nat) (sep : List Nat) (hd : 1 ≤ d) :
    find_chunk_boundaries [] d sep = [0] := by
  have h0 : 0 ∈ find_chunk_boundaries [] d sep :=
    (mem_sortedSet _ _).mpr (adjusted_mem_zero [] sep d hd)
  have hall : ∀ x ∈ find_chunk_boundaries [] d sep, x = 0 := by
    intro x hx
    have hle := adjusted_mem_le [] sep d x ((mem_sortedSet _ _).mp hx)
    simpa using hle
  cases hres : find_chunk_boundaries [] d sep with
  | nil =>
    rw [hres] at h0
    exact absurd h0 (List.not_mem_nil 0)
  | cons x t =>
    have hx : x = 0 := hall x (by rw [hres] ; exact List.mem_cons_self _ _)
    cases t with
    | nil => rw [hx]
    | cons y t' =>
      have hy : y = 0 := hall y (by rw [hres] ; simp)
      have hnd : (x :: y :: t').Nodup := by
        rw [← hres]
        exact nodup_sortedSet _
      rw [hx, hy] at hnd
      simp at hnd

/-- Witness for C9 with three requested chunks. -/
theorem C9_empty_file_singleton_witness :
    find_chunk_boundaries [] 3 [88] = [0] :=
  C9_empty_file_singleton 3 [88] (by decide)

/-- C10: the boundary computation is deterministic — two runs on equal
file contents with equal parameters return identical boundary
sequences. -/
theorem C10_deterministic (data1 data2 : List Nat) (d1 d2 : Nat)
    (sep1 sep2 : List Nat) (hdata : data1 = data2) (hd : d1 = d2)
    (hsep : sep1 = sep2) :
    find_chunk_boundaries data1 d1 sep1 = find_chunk_boundaries data2 d2 sep2 := by
  rw [hdata, hd, hsep]

/-- Witness for C10 at the concrete scenario parameters. -/
theorem C10_deterministic_witness :
    find_chunk_boundaries dataC3 4 [88] = find_chunk_boundaries dataC3 4 [88] :=
  C10_deterministic dataC3 dataC3 4 4 [88] [88] rfl rfl rfl

/-- C3: on the 100-byte file with separator `"X" = [88]` occurring only at
offsets 24 and 51 and `desired_num_chunks = 4`, the initial guesses are
`[0, 25, 50, 75, 100]` and the returned boundaries are exactly
`[0, 51, 100]` (guesses 25 and 50 both resolve to the occurrence at 51,
guess 75 finds no occurrence and collapses to 100). -/
theorem C3_concrete_scenario :
    initialBoundaries 100 4 = [0, 25, 50, 75, 100] ∧
      dataC3.length = 100 ∧
      (∀ i, occursAt dataC3 [88] i ↔ i = 24 ∨ i = 51) ∧
      find_chunk_boundaries dataC3 4 [88] = [0, 51, 100] := by
  refine ⟨by decide, by decide, ?_, by decide⟩
  intro i
  by_cases hi : i < 100
  · exact (by decide : ∀ j < 100, (occursAt dataC3 [88] j ↔ j = 24 ∨ j = 51)) i hi
  · constructor
    · intro hocc
      exfalso
      unfold occursAt at hocc
      rw [List.drop_eq_nil_iff.mpr
        (by rw [(by decide : dataC3.length = 100)] ; omega)] at hocc
      simp at hocc
    · intro h
      omega

/-! ### The cross-window scenario of C5 -/

lemma dataC5_length : dataC5.length = 8194 := by
  rw [dataC5, List.length_append, List.length_replicate]
  decide

lemma dataC5_drop (m : Nat) (hm : m ≤ 8192) :
    dataC5.drop m = List.replicate (8192 - m) 65 ++ [88, 88] := by
  rw [dataC5, List.drop_append_of_le_length (by rw [List.length_replicate] ; omega),
    List.drop_replicate]

lemma dataC5_drop_beyond (m : Nat) (hm : 8192 ≤ m) :
    dataC5.drop m = [88, 88].drop (m - 8192) := by
  rw [dataC5, List.drop_append_eq_append_drop, List.drop_replicate,
    (by omega : 8192 - m = 0), List.replicate_zero, List.length_replicate,
    List.nil_append]

/-- The two-byte separator `[88, 88]` occurs in `dataC5` only at
offset 8192. -/
lemma occursAt_dataC5 (i : Nat) : occursAt dataC5 [88, 88] i ↔ i = 8192 := by
  constructor
  · intro h
    unfold occursAt at h
    by_cases hi : i ≤ 8192
    · by_cases hi2 : i = 8192
      · exact hi2
      · exfalso
        rw [dataC5_drop i hi] at h
        obtain ⟨k, hk⟩ : ∃ k, 8192 - i = k + 1 := ⟨8192 - i - 1, by omega⟩
        rw [hk, List.replicate_succ, List.cons_append] at h
        simp at h
    · exfalso
      rw [dataC5_drop_beyond i (by omega)] at h
      obtain ⟨k, hk⟩ : ∃ k, i - 8192 = k + 1 := ⟨i - 8193, by omega⟩
      rw [hk] at h
      rcases k with _ | k
      · simp at h
      · simp at h
  · intro h
    subst h
    unfold occursAt
    rw [dataC5_drop 8192 (by omega), Nat.sub_self, List.replicate_zero,
      List.nil_append]
    decide

/-- The first scan window of the interior guess 4097: its last byte is
the first `88`, so the two-byte separator is not contained in it. -/
lemma window1_eq : (dataC5.drop 4097).take mini_chunk_size =
    List.replicate 4095 65 ++ [88] := by
  rw [dataC5_drop 4097 (by omega), (by omega : 8192 - 4097 = 4095),
    mini_chunk_size, List.take_append_eq_append_take, List.take_replicate,
    List.length_replicate, (by omega : min 4096 4095 = 4095),
    (by omega : 4096 - 4095 = 1)]
  rfl

lemma window1_no_match (m : Nat) :
    ((List.replicate 4095 65 ++ [88]).drop m).take 2 ≠ [88, 88] := by
  by_cases hm : m ≤ 4095
  · rw [List.drop_append_of_le_length (by rw [List.length_replicate] ; omega),
      List.drop_replicate]
    rcases hk : 4095 - m with _ | k
    · simp
    · rw [List.replicate_succ, List.cons_append]
      simp
  · rw [List.drop_append_eq_append_drop, List.drop_replicate,
      (by omega : 4095 - m = 0), List.replicate_zero, List.length_replicate,
      List.nil_append]
    obtain ⟨k, hk⟩ : ∃ k, m - 4095 = k + 1 := ⟨m - 4096, by omega⟩
    rw [hk]
    rcases k with _ | k <;> simp

lemma window2_eq : (dataC5.drop 8193).take mini_chunk_size = [88] := by
  rw [dataC5_drop_beyond 8193 (by omega)]
  decide

lemma window3_eq : dataC5.drop 12289 = [] := by
  rw [dataC5_drop_beyond 12289 (by omega)]
  decide

/-- The scan for the interior guess 4097 of `dataC5` misses the
occurrence at 8192 (it straddles the first two windows) and runs to end
of file. -/
lemma adjustC5 : adjustBoundary dataC5 [88, 88] 4097 = 8194 := by
  rw [adjustBoundary, dataC5_length]
  rw [adjustBoundaryFuel, window1_eq]
  rw [if_neg (show (List.replicate 4095 65 ++ [88] : List Nat) ≠ [] by
    intro hcontra
    exact absurd (List.append_eq_nil.mp hcontra).2 (by decide))]
  rw [show bytesFind (List.replicate 4095 65 ++ [88]) [88, 88] = none from
    bytesFindFrom_eq_none _ _ 0 (fun m => window1_no_match m)]
  show adjustBoundaryFuel dataC5 [88, 88] (8193 + 1) 8193 = 8194
  rw [adjustBoundaryFuel, window2_eq]
  rw [if_neg (by decide : ([88] : List Nat) ≠ [])]
  rw [show bytesFind [88] [88, 88] = none from by decide]
  show adjustBoundaryFuel dataC5 [88, 88] (8192 + 1) 12289 = 8194
  rw [adjustBoundaryFuel]
  rw [show (dataC5.drop 12289).take mini_chunk_size = [] from by
    rw [window3_eq] ; simp]
  rw [if_pos rfl]
  exact dataC5_length

/-- C5: a concrete input on which the non-overlapping 4096-byte window
scan misses a separator occurrence that straddles a window boundary.  The
separator `[88, 88]` has length 2 > 1; its sole occurrence starts at
offset 8192, which lies inside the first window of the interior guess
4097 (`8192 < 4097 + 4096`) but ends beyond it
(`4097 + 4096 < 8192 + 2`); the scan finds nothing in either window, so
the boundary resolves to `file_size` and the result is `[0, 8194]`. -/
theorem C5_cross_window_miss :
    1 < ([88, 88] : List Nat).length ∧
      occursAt dataC5 [88, 88] 8192 ∧
      (∀ i, occursAt dataC5 [88, 88] i → i = 8192) ∧
      initialBoundaries dataC5.length 2 = [0, 4097, 8194] ∧
      4097 ≤ 8192 ∧ 8192 < 4097 + mini_chunk_size ∧
      4097 + mini_chunk_size < 8192 + ([88, 88] : List Nat).length ∧
      find_chunk_boundaries dataC5 2 [88, 88] = [0, 8194] := by
  refine ⟨by decide, (occursAt_dataC5 8192).mpr rfl,
    fun i => (occursAt_dataC5 i).mp, ?_, by omega, by rw [mini_chunk_size] ; omega,
    by rw [mini_chunk_size] ; norm_num, ?_⟩
  · rw [dataC5_length]
    decide
  · have hinit : initialBoundaries dataC5.length 2 = [0, 4097, 8194] := by
      rw [dataC5_length]
      decide
    have hadj : adjustAll dataC5 [88, 88] [0, 4097, 8194] =
        [0, adjustBoundary dataC5 [88, 88] 4097, 8194] := by
      rw [adjustAll, (by decide : ([0, 4097, 8194] : List Nat).length = 3)]
      rw [adjustAllFrom, if_neg (by decide : ¬(1 ≤ 0 ∧ 0 + 1 < 3))]
      rw [adjustAllFrom, if_pos (by decide : 1 ≤ 0 + 1 ∧ 0 + 1 + 1 < 3)]
      rw [adjustAllFrom, if_neg (by decide : ¬(1 ≤ 0 + 1 + 1 ∧ 0 + 1 + 1 + 1 < 3))]
      rw [adjustAllFrom]
    calc find_chunk_boundaries dataC5 2 [88, 88]
        = sortedSet (adjustAll dataC5 [88, 88]
            (initialBoundaries dataC5.length 2)) := rfl
      _ = sortedSet (adjustAll dataC5 [88, 88] [0, 4097, 8194]) := by rw [hinit]
      _ = sortedSet [0, adjustBoundary dataC5 [88, 88] 4097, 8194] := by rw [hadj]
      _ = sortedSet [0, 8194, 8194] := by rw [adjustC5]
      _ = [0, 8194] := by decide
